import Mathlib

/-!
Verification of the registry and encoder core of `rust-prometheus`
(`src/registry.rs`, `src/encoder/mod.rs`), via a shallow embedding.

Machine integers (`u64`) are modelled as `Nat`; `u64::wrapping_add` is
modelled by taking the result modulo `2 ^ 64`.  The `HashMap`s / `HashSet`
of `RegistryCore` are modelled as association lists / lists (only their
lookup / insert / remove / membership behaviour is used by the source),
and the `BTreeMap` used by `gather` is modelled as an association list kept
strictly sorted by key.  Fallible operations on `&mut self` return the
(possibly mutated) state together with an optional error, mirroring the
fact that mutations performed before an early `return Err(..)` persist.
-/

namespace Prom

/-- A label name/value pair (`proto::LabelPair`): only the fields read by
`registry.rs` are modelled. -/
structure LabelPair where
  name : String
  value : String
  deriving DecidableEq, Repr

/-- One metric of a family (`proto::Metric`): the sort in
`RegistryCore::gather` reads the label list and the timestamp.  The
timestamp is optional in the protobuf message; `none` means "no timestamp
set". -/
structure Metric where
  labels : List LabelPair
  timestamp_ms : Option Int
  deriving DecidableEq, Repr

/-- A metric family (`proto::MetricFamily`): the registry and
`check_metric_family` read its name and its metric list; the remaining
protobuf fields (help, type, …) are not read by the code under
verification and are omitted. -/
structure MetricFamily where
  name : String
  metrics : List Metric
  deriving DecidableEq, Repr

/-- A descriptor (`Desc`): the fields of `Desc` read by `registry.rs` are
`id`, `fq_name` and `dim_hash` (both hashes are `u64`, modelled as `Nat`). -/
structure Desc where
  id : Nat
  fq_name : String
  dim_hash : Nat
  deriving DecidableEq, Repr

/-- A collector (the `Collector` trait object): `desc()` is the descriptor
list, `collect()` the metric-family snapshot.  Both are modelled as fixed
lists (the source assumes `desc()` is deterministic, and `gather` reads
`collect()` exactly once per collector). -/
structure Collector where
  descs : List Desc
  collect : List MetricFamily
  deriving DecidableEq, Repr

/-- The error values produced by the code under verification.  The source
uses `Error::Msg(format!(..))` with a distinct format string at each
failure site plus the dedicated `Error::AlreadyReg`; each distinct site is
one constructor:
* `msgDuplicateDescriptor` — registry.rs:41 ("descriptor {:?} already exists …")
* `msgInconsistentDescriptor` — registry.rs:50 ("… different label names or a different help string")
* `msgDuplicateInCollector` — registry.rs:72 ("a duplicate descriptor within the same collector …")
* `alreadyReg` — registry.rs:86 (`Error::AlreadyReg`)
* `msgNotRegistered` — registry.rs:101 ("collector {:?} is not registered")
* `msgNoMetrics` — encoder/mod.rs:42 ("MetricFamily has no metrics: {:?}")
* `msgNoName` — encoder/mod.rs:45 ("MetricFamily has no name: {:?}") -/
inductive Error where
  | msgDuplicateDescriptor (d : Desc)
  | msgInconsistentDescriptor (d : Desc)
  | msgDuplicateInCollector (fq_name : String)
  | alreadyReg
  | msgNotRegistered
  | msgNoMetrics
  | msgNoName
  deriving DecidableEq, Repr

/-- The mutable state of the registry (`RegistryCore`, registry.rs:26-30).
The field name `colloctors_by_id` reproduces the source's spelling. -/
structure RegistryCore where
  colloctors_by_id : List (Nat × Collector)
  dim_hashes_by_name : List (String × Nat)
  desc_ids : List Nat
  deriving DecidableEq, Repr

/-- Lookup in the `colloctors_by_id` map (`HashMap<u64, Box<Collector>>`). -/
def lookupC : List (Nat × Collector) → Nat → Option Collector
  | [], _ => none
  | (k, c) :: rest, k' => if k = k' then some c else lookupC rest k'

/-- Lookup in the `dim_hashes_by_name` map (`HashMap<String, u64>`). -/
def lookupD : List (String × Nat) → String → Option Nat
  | [], _ => none
  | (k, v) :: rest, k' => if k = k' then some v else lookupD rest k'

/-- `HashMap::insert` on `dim_hashes_by_name`: replaces the value of an
existing key or appends a fresh binding. -/
def dimInsert : List (String × Nat) → String → Nat → List (String × Nat)
  | [], k, v => [(k, v)]
  | (k', v') :: rest, k, v =>
    if k' = k then (k, v) :: rest else (k', v') :: dimInsert rest k v

/-- `HashMap::remove` on `colloctors_by_id` (the map has unique keys, so
removing every binding of the key is the same operation). -/
def removeC : List (Nat × Collector) → Nat → List (Nat × Collector)
  | [], _ => []
  | (k', c) :: rest, k =>
    if k' = k then removeC rest k else (k', c) :: removeC rest k

/-- The dimension-hash consistency check of `RegistryCore::register`
(registry.rs:48-58): a previously recorded hash for `d.fq_name` exists and
differs from `d.dim_hash`. -/
def dimConflict (m : List (String × Nat)) (d : Desc) : Bool :=
  match lookupD m d.fq_name with
  | some hash => hash != d.dim_hash
  | none => false

/-- The descriptor loop of `RegistryCore::register` (registry.rs:34-78).
`scratch` is the per-call `desc_id_set`, `cid` the running `collector_id`.
For each descriptor, in source order: the global `desc_ids` uniqueness
check, the `dim_hashes_by_name` consistency check, the unconditional
`dim_hashes_by_name.insert`, then the per-collector duplicate check with
`collector_id = collector_id.wrapping_add(desc.id)` on success.  The
returned state carries the `dim_hashes_by_name` insertions already
performed when an early `return Err(..)` fires. -/
def registerLoop :
    RegistryCore → List Desc → List Nat → Nat →
      RegistryCore × Except Error (List Nat × Nat)
  | s, [], scratch, cid => (s, Except.ok (scratch, cid))
  | s, d :: rest, scratch, cid =>
    if d.id ∈ s.desc_ids then
      (s, Except.error (Error.msgDuplicateDescriptor d))
    else if dimConflict s.dim_hashes_by_name d then
      (s, Except.error (Error.msgInconsistentDescriptor d))
    else
      let s' := { s with
        dim_hashes_by_name := dimInsert s.dim_hashes_by_name d.fq_name d.dim_hash }
      if d.id ∈ scratch then
        (s', Except.error (Error.msgDuplicateInCollector d.fq_name))
      else
        registerLoop s' rest (d.id :: scratch) ((cid + d.id) % 2 ^ 64)

/-- `RegistryCore::register` (registry.rs:33-88): run the descriptor loop,
then resolve the `colloctors_by_id` entry for the computed `collector_id`
(occupied → `Error::AlreadyReg`; vacant → insert the collector and extend
the global `desc_ids` with the scratch set). -/
def register (s : RegistryCore) (c : Collector) : RegistryCore × Option Error :=
  match registerLoop s c.descs [] 0 with
  | (s', Except.error e) => (s', some e)
  | (s', Except.ok (scratch, cid)) =>
    match lookupC s'.colloctors_by_id cid with
    | some _ => (s', some Error.alreadyReg)
    | none =>
      ({ s' with
          colloctors_by_id := (cid, c) :: s'.colloctors_by_id,
          desc_ids := s'.desc_ids ++ scratch }, none)

/-- The id-summation loop of `RegistryCore::unregister` (registry.rs:91-98):
deduplicate the descriptor ids into `id_set` and sum them into
`collector_id` with plain `+=`.  The source performs `collector_id +=
desc.id` on `u64` with no `wrapping_add`; per the spec (§4.2, §9) this is
the non-wrapping sum, modelled as the plain `Nat` sum. -/
def unregisterSum : List Desc → List Nat → Nat → List Nat × Nat
  | [], ids, cid => (ids, cid)
  | d :: rest, ids, cid =>
    if d.id ∈ ids then unregisterSum rest ids cid
    else unregisterSum rest (ids ++ [d.id]) (cid + d.id)

/-- `RegistryCore::unregister` (registry.rs:90-109): recompute the
collector id and remove the matching entry; if none matches, fail with the
"not registered" error.  `dim_hashes_by_name` and `desc_ids` are left
untouched in both cases. -/
def unregister (s : RegistryCore) (c : Collector) : RegistryCore × Option Error :=
  match lookupC s.colloctors_by_id (unregisterSum c.descs [] 0).2 with
  | some _ =>
    ({ s with colloctors_by_id :=
        removeC s.colloctors_by_id (unregisterSum c.descs [] 0).2 }, none)
  | none => (s, some Error.msgNotRegistered)

/-- `Ordering`-valued comparison of a linear order, as Rust's `Ord::cmp`. -/
def cmpOf {α : Type} [LinearOrder α] (a b : α) : Ordering :=
  if a < b then Ordering.lt else if b < a then Ordering.gt else Ordering.eq

/-- The label-value loop of the metric comparator (registry.rs:156-160):
walk the two label lists in lockstep (`zip` semantics: stop at the shorter
list) and return the comparison of the first differing values. -/
def lvCmp : List LabelPair → List LabelPair → Ordering
  | l1 :: r1, l2 :: r2 =>
    if l1.value ≠ l2.value then cmpOf l1.value l2.value else lvCmp r1 r2
  | _, _ => Ordering.eq

/-- Modelled from the spec: the protobuf accessor `Metric::get_timestamp_ms`
and its comparison are not under `src/` (the generated `proto` module is
external).  Per the spec (§4.3: "break ties by an associated timestamp
(missing timestamp sorts last, treated as now)") a missing timestamp
compares above every present one, i.e. the sort key is `WithTop Int` with
`none ↦ ⊤`. -/
def tsKey : Option Int → WithTop Int
  | none => ⊤
  | some t => (t : WithTop Int)

/-- Timestamp comparison used as the final tie-break of the metric sort
(registry.rs:168, with the missing-timestamp behaviour of `tsKey`). -/
def tsCmp (t1 t2 : Option Int) : Ordering :=
  cmpOf (tsKey t1) (tsKey t2)

/-- The comparator passed to `sort_by` in `RegistryCore::gather`
(registry.rs:142-169): differing label counts compare by count; otherwise
lexicographically by label values; fully equal label values fall back to
the timestamp. -/
def metricCmp (m1 m2 : Metric) : Ordering :=
  if m1.labels.length ≠ m2.labels.length then
    cmpOf m1.labels.length m2.labels.length
  else
    match lvCmp m1.labels m2.labels with
    | Ordering.eq => tsCmp m1.timestamp_ms m2.timestamp_ms
    | o => o

/-- Insertion step of the model of `slice::sort_by`: place `x` before the
first element it does not compare `gt` against. -/
def insertSorted {α : Type} (cmp : α → α → Ordering) (x : α) : List α → List α
  | [] => [x]
  | y :: ys =>
    if cmp x y = Ordering.gt then y :: insertSorted cmp x ys
    else x :: y :: ys

/-- Model of `slice::sort_by` (a comparator-driven stable sort). -/
def sortBy {α : Type} (cmp : α → α → Ordering) : List α → List α
  | [] => []
  | x :: xs => insertSorted cmp x (sortBy cmp xs)

/-- One `mf_by_name.entry(name)` step of `RegistryCore::gather`
(registry.rs:119-133) on the `BTreeMap` modelled as an association list
strictly sorted by key: a vacant entry inserts the family, an occupied one
appends the new family's metrics to the existing family's list. -/
def mfInsert : List (String × MetricFamily) → String → MetricFamily →
    List (String × MetricFamily)
  | [], name, mf => [(name, mf)]
  | (k, v) :: rest, name, mf =>
    if name < k then (name, mf) :: (k, v) :: rest
    else if name = k then
      (k, { v with metrics := v.metrics ++ mf.metrics }) :: rest
    else (k, v) :: mfInsert rest name mf

/-- `RegistryCore::gather` (registry.rs:111-175): merge every collector's
`collect()` output into the name-keyed ordered map, sort each merged
family's metric list with `metricCmp`, and emit the families in key
order. -/
def gather (s : RegistryCore) : List MetricFamily :=
  let merged := s.colloctors_by_id.foldl
    (fun acc kc => kc.2.collect.foldl (fun a mf => mfInsert a mf.name mf) acc) []
  merged.map (fun kv => { kv.2 with metrics := sortBy metricCmp kv.2.metrics })

/-- `check_metric_family` (encoder/mod.rs:40-48): reject a family with no
metrics, then a family with no name. -/
def check_metric_family (mf : MetricFamily) : Except Error Unit :=
  if mf.metrics = [] then Except.error Error.msgNoMetrics
  else if mf.name = "" then Except.error Error.msgNoName
  else Except.ok ()

/-- First failure of `check_metric_family` over a slice of families. -/
def checkAll : List MetricFamily → Except Error Unit
  | [] => Except.ok ()
  | mf :: rest =>
    match check_metric_family mf with
    | Except.error e => Except.error e
    | Except.ok _ => checkAll rest

/-- Modelled from the spec: the bodies of `TextEncoder::encode` and
`ProtobufEncoder::encode` (src/encoder/text.rs, src/encoder/pb.rs) are not
under `src/`; only the shared precondition `check_metric_family` is.  Per
the spec (§4.5) every implementation validates each family with
`check_metric_family` and writes nothing at all on failure ("nothing is
written (not even bytes already produced for prior families in the same
call) once the precondition check fails").  An implementation is
abstracted by its per-family byte rendering `render`; the sink is the byte
list `writer` to which `encode` appends. -/
def encode (render : MetricFamily → List Nat) (mfs : List MetricFamily)
    (writer : List Nat) : List Nat × Except Error Unit :=
  match checkAll mfs with
  | Except.error e => (writer, Except.error e)
  | Except.ok _ => (writer ++ (mfs.map render).flatten, Except.ok ())

/-- A registry mutation: one `register` or `unregister` call. -/
inductive Op where
  | reg (c : Collector)
  | unreg (c : Collector)

/-- Apply one mutation, keeping the resulting state (the call's result
value is discarded). -/
def applyOp (s : RegistryCore) : Op → RegistryCore
  | Op.reg c => (register s c).1
  | Op.unreg c => (unregister s c).1

/-- Run a sequence of registry mutations. -/
def runOps (s : RegistryCore) (ops : List Op) : RegistryCore :=
  ops.foldl applyOp s

/-- The state of `Registry::new()` (registry.rs:185-197): all three
components empty. -/
def emptyRegistry : RegistryCore :=
  { colloctors_by_id := [], dim_hashes_by_name := [], desc_ids := [] }

/-! ### Concrete fixtures used by counterexamples and witnesses -/

/-- A collector with one descriptor, as built by `Counter::new("test", ..)`
in the source's `test_registry`. -/
def cTest : Collector := ⟨[⟨11, "test", 101⟩], [⟨"test", [⟨[], none⟩]⟩]⟩

/-- A registry that has already accepted a descriptor with id 5. -/
def sSeen5 : RegistryCore := ⟨[], [], [5]⟩

/-- A collector whose first descriptor is fresh and whose second collides
with the already-seen descriptor id 5. -/
def cPartial : Collector := ⟨[⟨1, "a", 10⟩, ⟨5, "b", 20⟩], []⟩

/-- A collector whose two distinct descriptor ids sum to `2 ^ 64 + 1`,
overflowing the wrapping `collector_id` sum of `register`. -/
def cOverflow : Collector := ⟨[⟨2 ^ 63, "x", 0⟩, ⟨2 ^ 63 + 1, "y", 0⟩], []⟩

/-- A registry that maps the fully-qualified name "m" to dimension hash 3. -/
def sDimM : RegistryCore := ⟨[], [("m", 3)], []⟩

/-- A collector exposing "m" with the conflicting dimension hash 4. -/
def cDimM : Collector := ⟨[⟨1, "m", 4⟩], []⟩

/-- A collector exposing no descriptors (its `desc()` is empty). -/
def cEmptyA : Collector := ⟨[], [⟨"e1", []⟩]⟩

/-- A second descriptor-less collector, sharing no state with `cEmptyA`. -/
def cEmptyB : Collector := ⟨[], []⟩

/-! ## Basic lemmas about the map and set models -/

theorem lookupD_dimInsert_self (m : List (String × Nat)) (k : String) (v : Nat) :
    lookupD (dimInsert m k v) k = some v := by
  induction m with
  | nil => simp [dimInsert, lookupD]
  | cons p rest ih =>
    obtain ⟨k', v'⟩ := p
    by_cases hk : k' = k
    · subst hk; simp [dimInsert, lookupD]
    · simp [dimInsert, lookupD, hk, ih]

theorem lookupD_dimInsert_ne (m : List (String × Nat)) (k k' : String) (v : Nat)
    (h : k ≠ k') : lookupD (dimInsert m k v) k' = lookupD m k' := by
  induction m with
  | nil => simp [dimInsert, lookupD, h]
  | cons p rest ih =>
    obtain ⟨k0, v0⟩ := p
    by_cases hk : k0 = k
    · subst hk; simp [dimInsert, lookupD, h]
    · simp [dimInsert, lookupD, hk, ih]

theorem removeC_eq_of_lookup_none (m : List (Nat × Collector)) (k : Nat)
    (h : lookupC m k = none) : removeC m k = m := by
  induction m with
  | nil => rfl
  | cons p rest ih =>
    obtain ⟨k', c⟩ := p
    by_cases hk : k' = k
    · subst hk; simp [lookupC] at h
    · simp only [lookupC, if_neg hk] at h
      simp [removeC, hk, ih h]

theorem lookupC_removeC_self (m : List (Nat × Collector)) (k : Nat) :
    lookupC (removeC m k) k = none := by
  induction m with
  | nil => rfl
  | cons p rest ih =>
    obtain ⟨k', c⟩ := p
    by_cases hk : k' = k
    · subst hk; simp [removeC, ih]
    · simp [removeC, hk, lookupC, ih]

/-! ## Lemmas about the register loop -/

/-- The descriptor loop only mutates `dim_hashes_by_name`:
`colloctors_by_id` and `desc_ids` come back unchanged. -/
theorem registerLoop_preserves (ds : List Desc) :
    ∀ (s : RegistryCore) (sc : List Nat) (cid : Nat),
      (registerLoop s ds sc cid).1.colloctors_by_id = s.colloctors_by_id ∧
      (registerLoop s ds sc cid).1.desc_ids = s.desc_ids := by
  induction ds with
  | nil => intro s sc cid; exact ⟨rfl, rfl⟩
  | cons d rest ih =>
    intro s sc cid
    simp only [registerLoop]
    split
    · exact ⟨rfl, rfl⟩
    · split
      · exact ⟨rfl, rfl⟩
      · split
        · exact ⟨rfl, rfl⟩
        · exact ih _ _ _

/-- On success the scratch set accumulates exactly the descriptor ids
(most recent first). -/
theorem registerLoop_ok_scratch (ds : List Desc) :
    ∀ (s s' : RegistryCore) (sc sc' : List Nat) (cid cid' : Nat),
      registerLoop s ds sc cid = (s', Except.ok (sc', cid')) →
      sc' = (ds.map Desc.id).reverse ++ sc := by
  induction ds with
  | nil =>
    intro s s' sc sc' cid cid' h
    simp only [registerLoop, Prod.mk.injEq, Except.ok.injEq] at h
    simp [← h.2.1]
  | cons d rest ih =>
    intro s s' sc sc' cid cid' h
    simp only [registerLoop] at h
    split at h
    · exact absurd h (by simp)
    · split at h
      · exact absurd h (by simp)
      · split at h
        · exact absurd h (by simp)
        · have := ih _ _ _ _ _ _ h
          simp [this]

/-- On success no descriptor id was already in the scratch set and the
descriptor ids of the call are pairwise distinct. -/
theorem registerLoop_ok_nodup (ds : List Desc) :
    ∀ (s s' : RegistryCore) (sc sc' : List Nat) (cid cid' : Nat),
      registerLoop s ds sc cid = (s', Except.ok (sc', cid')) →
      (∀ d ∈ ds, d.id ∉ sc) ∧ (ds.map Desc.id).Nodup := by
  induction ds with
  | nil => intro s s' sc sc' cid cid' _; simp
  | cons d rest ih =>
    intro s s' sc sc' cid cid' h
    simp only [registerLoop] at h
    split at h
    · exact absurd h (by simp)
    · split at h
      · exact absurd h (by simp)
      · split at h
        · exact absurd h (by simp)
        · rename_i hsc
          obtain ⟨hdisj, hnd⟩ := ih _ _ _ _ _ _ h
          refine ⟨?_, ?_⟩
          · intro d' hd'
            rcases List.mem_cons.mp hd' with rfl | hd'
            · exact hsc
            · have := hdisj d' hd'
              simp only [List.mem_cons, not_or] at this
              exact this.2
          · refine List.nodup_cons.mpr ⟨?_, hnd⟩
            intro hmem
            rcases List.mem_map.mp hmem with ⟨d', hd', hid⟩
            have := hdisj d' hd'
            simp only [List.mem_cons, not_or] at this
            exact this.1 hid

/-- On success the collector id is the wrapping (mod `2 ^ 64`) sum of the
descriptor ids, folded on top of the incoming accumulator. -/
theorem registerLoop_ok_cid (ds : List Desc) :
    ∀ (s s' : RegistryCore) (sc sc' : List Nat) (cid cid' : Nat),
      cid < 2 ^ 64 →
      registerLoop s ds sc cid = (s', Except.ok (sc', cid')) →
      cid' = (cid + (ds.map Desc.id).sum) % 2 ^ 64 := by
  induction ds with
  | nil =>
    intro s s' sc sc' cid cid' hlt h
    simp only [registerLoop, Prod.mk.injEq, Except.ok.injEq] at h
    simp only [List.map_nil, List.sum_nil]
    omega
  | cons d rest ih =>
    intro s s' sc sc' cid cid' hlt h
    simp only [registerLoop] at h
    split at h
    · exact absurd h (by simp)
    · split at h
      · exact absurd h (by simp)
      · split at h
        · exact absurd h (by simp)
        · have := ih _ _ _ _ _ _ (Nat.mod_lt _ (by norm_num)) h
          rw [this, Nat.mod_add_mod, Nat.add_assoc]
          simp

/-- If a descriptor of the call is already in the global `desc_ids` set,
the descriptor loop fails (with some error). -/
theorem registerLoop_seen_id_error (ds : List Desc) :
    ∀ (s : RegistryCore) (sc : List Nat) (cid : Nat) (d : Desc),
      d ∈ ds → d.id ∈ s.desc_ids →
      ∃ st e, registerLoop s ds sc cid = (st, Except.error e) := by
  induction ds with
  | nil => intro _ _ _ _ h; simp at h
  | cons d0 rest ih =>
    intro s sc cid d hd hmem
    by_cases h1 : d0.id ∈ s.desc_ids
    · exact ⟨s, Error.msgDuplicateDescriptor d0, by simp [registerLoop, h1]⟩
    · by_cases h2 : dimConflict s.dim_hashes_by_name d0
      · exact ⟨s, Error.msgInconsistentDescriptor d0, by simp [registerLoop, h1, h2]⟩
      · by_cases h3 : d0.id ∈ sc
        · exact ⟨{ s with dim_hashes_by_name := dimInsert s.dim_hashes_by_name d0.fq_name d0.dim_hash }, Error.msgDuplicateInCollector d0.fq_name, by simp [registerLoop, h1, h2, h3]⟩
        · rcases List.mem_cons.mp hd with rfl | hd
          · exact absurd hmem h1
          · have hstep : registerLoop s (d0 :: rest) sc cid = registerLoop { s with dim_hashes_by_name := dimInsert s.dim_hashes_by_name d0.fq_name d0.dim_hash } rest (d0.id :: sc) ((cid + d0.id) % 2 ^ 64) := by
              simp [registerLoop, h1, h2, h3]
            rw [hstep]
            exact ih _ _ _ d hd hmem

/-- `register` fails whenever one of the collector's descriptor ids is
already known to the registry. -/
theorem register_seen_id_isSome (s : RegistryCore) (c : Collector) (d : Desc)
    (hd : d ∈ c.descs) (hmem : d.id ∈ s.desc_ids) :
    (register s c).2.isSome := by
  obtain ⟨st, e, hl⟩ := registerLoop_seen_id_error c.descs s [] 0 d hd hmem
  simp [register, hl]

/-- If already the first descriptor's id is known, `register` fails with
exactly the duplicate-descriptor error for that descriptor. -/
theorem register_head_seen_id (s : RegistryCore) (c : Collector) (d0 : Desc)
    (rest : List Desc) (hds : c.descs = d0 :: rest) (hmem : d0.id ∈ s.desc_ids) :
    (register s c).2 = some (Error.msgDuplicateDescriptor d0) := by
  simp [register, hds, registerLoop, hmem]

/-- `register` never removes an id from `desc_ids`, on success or failure. -/
theorem register_desc_ids_mono (s : RegistryCore) (c : Collector) (x : Nat)
    (hx : x ∈ s.desc_ids) : x ∈ (register s c).1.desc_ids := by
  unfold register
  rcases hl : registerLoop s c.descs [] 0 with ⟨st, r⟩
  have hst := (registerLoop_preserves c.descs s [] 0).2
  rw [hl] at hst
  have hst2 : st.desc_ids = s.desc_ids := hst
  cases r with
  | error e => simpa [hst2] using hx
  | ok p =>
    obtain ⟨sc, cid⟩ := p
    cases hlk : lookupC st.colloctors_by_id cid with
    | some c' => simpa [hlk, hst2] using hx
    | none => simp [hlk, hst2, hx]

/-- `unregister` touches neither `dim_hashes_by_name` nor `desc_ids`. -/
theorem unregister_preserves (s : RegistryCore) (c : Collector) :
    (unregister s c).1.dim_hashes_by_name = s.dim_hashes_by_name ∧
    (unregister s c).1.desc_ids = s.desc_ids := by
  unfold unregister
  cases hlk : lookupC s.colloctors_by_id (unregisterSum c.descs [] 0).2 with
  | some c' => simp [hlk]
  | none => simp [hlk]

/-- An id in `desc_ids` stays there across any sequence of `register` /
`unregister` calls. -/
theorem runOps_desc_ids_mono (ops : List Op) :
    ∀ (s : RegistryCore) (x : Nat), x ∈ s.desc_ids → x ∈ (runOps s ops).desc_ids := by
  induction ops with
  | nil => intro s x hx; exact hx
  | cons op rest ih =>
    intro s x hx
    simp only [runOps, List.foldl_cons]
    refine ih _ x ?_
    cases op with
    | reg c => exact register_desc_ids_mono s c x hx
    | unreg c =>
      show x ∈ (unregister s c).1.desc_ids
      rw [(unregister_preserves s c).2]
      exact hx

/-- Deduplicating summation of `unregister` on a duplicate-free id list:
it keeps every id and computes the plain sum. -/
theorem unregisterSum_eq (ds : List Desc) :
    ∀ (acc : List Nat) (cid : Nat),
      (ds.map Desc.id).Nodup → (∀ d ∈ ds, d.id ∉ acc) →
      unregisterSum ds acc cid = (acc ++ ds.map Desc.id, cid + (ds.map Desc.id).sum) := by
  induction ds with
  | nil => intro acc cid _ _; simp [unregisterSum]
  | cons d rest ih =>
    intro acc cid hnd hdisj
    have hmem : d.id ∉ acc := hdisj d (by simp)
    rw [List.map_cons, List.nodup_cons] at hnd
    simp only [unregisterSum, if_neg hmem]
    rw [ih (acc ++ [d.id]) (cid + d.id) hnd.2 ?_]
    · simp [Nat.add_assoc]
    · intro d' hd'
      simp only [List.mem_append, List.mem_singleton, not_or]
      refine ⟨hdisj d' (List.mem_cons_of_mem _ hd'), ?_⟩
      intro hcontra
      exact hnd.1 (List.mem_map.mpr ⟨d', hd', hcontra⟩)

/-! ## C1 -/

/-- C1 (amended): a failed `register` leaves `colloctors_by_id` and
`desc_ids` exactly as before the call (`dim_hashes_by_name` may however
retain insertions made for descriptors validated before the failure). -/
theorem register_error_leaves_collectors_and_desc_ids (s : RegistryCore) (c : Collector)
    (s' : RegistryCore) (e : Error) (h : register s c = (s', some e)) :
    s'.colloctors_by_id = s.colloctors_by_id ∧ s'.desc_ids = s.desc_ids := by
  unfold register at h
  split at h
  · rename_i st e' heq
    injection h with h1 h2
    subst h1
    have hpres := registerLoop_preserves c.descs s [] 0
    rw [heq] at hpres
    exact hpres
  · rename_i st sc cid heq
    split at h
    · rename_i c' hlk
      injection h with h1 h2
      subst h1
      have hpres := registerLoop_preserves c.descs s [] 0
      rw [heq] at hpres
      exact hpres
    · simp at h

/-- Witness for C1 (amended) at the concrete failing registration
`register sSeen5 cPartial`. -/
theorem register_error_leaves_collectors_and_desc_ids_witness :
    (⟨[], [("a", 10)], [5]⟩ : RegistryCore).colloctors_by_id = sSeen5.colloctors_by_id ∧
    (⟨[], [("a", 10)], [5]⟩ : RegistryCore).desc_ids = sSeen5.desc_ids :=
  register_error_leaves_collectors_and_desc_ids sSeen5 cPartial
    ⟨[], [("a", 10)], [5]⟩ (Error.msgDuplicateDescriptor ⟨5, "b", 20⟩) rfl

/-- C1 counterexample: the registration of `cPartial` into `sSeen5` fails
(its second descriptor id is already registered), yet the registry state
after the call differs from the state before — `dim_hashes_by_name` kept
the entry inserted for the first descriptor. -/
theorem register_error_mutates_dim_hashes :
    (register sSeen5 cPartial).2 = some (Error.msgDuplicateDescriptor ⟨5, "b", 20⟩) ∧
    (register sSeen5 cPartial).1.dim_hashes_by_name = [("a", 10)] ∧
    sSeen5.dim_hashes_by_name = [] ∧
    (register sSeen5 cPartial).1 ≠ sSeen5 := by
  have h1 : (register sSeen5 cPartial).1.dim_hashes_by_name = [("a", 10)] := rfl
  refine ⟨rfl, h1, rfl, fun hcontra => ?_⟩
  rw [hcontra] at h1
  exact (List.cons_ne_nil _ _) h1.symm

/-! ## C3 -/

/-- C3 (amended): as long as the plain sum of the collector's descriptor
ids does not overflow `u64` (sum `< 2 ^ 64`), the id recomputed by
`unregister` equals the plain descriptor-id sum, that id finds exactly the
entry `register` created, and unregistering after a successful
registration succeeds and removes that entry. -/
theorem register_unregister_agree_without_overflow (s : RegistryCore) (c : Collector)
    (s1 : RegistryCore) (hreg : register s c = (s1, none))
    (hlt : (c.descs.map Desc.id).sum < 2 ^ 64) :
    (unregisterSum c.descs [] 0).2 = (c.descs.map Desc.id).sum ∧
    lookupC s1.colloctors_by_id (unregisterSum c.descs [] 0).2 = some c ∧
    (unregister s1 c).2 = none ∧
    (unregister s1 c).1.colloctors_by_id = s.colloctors_by_id := by
  unfold register at hreg
  split at hreg
  · simp at hreg
  · rename_i st sc cid heq
    split at hreg
    · simp at hreg
    · rename_i hlk
      injection hreg with h1 h2
      subst h1
      have hnd := (registerLoop_ok_nodup c.descs s st [] sc 0 cid heq).2
      have hcid : cid = (c.descs.map Desc.id).sum := by
        have := registerLoop_ok_cid c.descs s st [] sc 0 cid (by norm_num) heq
        rwa [Nat.zero_add, Nat.mod_eq_of_lt hlt] at this
      have hsum : unregisterSum c.descs [] 0 =
          ([] ++ c.descs.map Desc.id, 0 + (c.descs.map Desc.id).sum) :=
        unregisterSum_eq c.descs [] 0 hnd (by simp)
      have hsum2 : (unregisterSum c.descs [] 0).2 = (c.descs.map Desc.id).sum := by
        rw [hsum]; simp
      have hcoll : st.colloctors_by_id = s.colloctors_by_id := by
        have := (registerLoop_preserves c.descs s [] 0).1
        rw [heq] at this
        exact this
      refine ⟨hsum2, ?_, ?_, ?_⟩
      · show lookupC ((cid, c) :: st.colloctors_by_id) _ = some c
        rw [hsum2, ← hcid]
        simp [lookupC]
      · unfold unregister
        rw [hsum2, ← hcid]
        have : lookupC ((cid, c) :: st.colloctors_by_id) cid = some c := by simp [lookupC]
        simp only [this]
      · unfold unregister
        rw [hsum2, ← hcid]
        have hfind : lookupC ((cid, c) :: st.colloctors_by_id) cid = some c := by
          simp [lookupC]
        simp only [hfind]
        show removeC ((cid, c) :: st.colloctors_by_id) cid = s.colloctors_by_id
        rw [show removeC ((cid, c) :: st.colloctors_by_id) cid =
              removeC st.colloctors_by_id cid from by simp [removeC]]
        rw [removeC_eq_of_lookup_none st.colloctors_by_id cid hlk, hcoll]

/-- Witness for C3 (amended) at the single-descriptor collector `cTest`
registered into the empty registry. -/
theorem register_unregister_agree_without_overflow_witness :
    (unregisterSum cTest.descs [] 0).2 = (cTest.descs.map Desc.id).sum ∧
    lookupC (register emptyRegistry cTest).1.colloctors_by_id
      (unregisterSum cTest.descs [] 0).2 = some cTest ∧
    (unregister (register emptyRegistry cTest).1 cTest).2 = none ∧
    (unregister (register emptyRegistry cTest).1 cTest).1.colloctors_by_id =
      emptyRegistry.colloctors_by_id :=
  register_unregister_agree_without_overflow emptyRegistry cTest
    (register emptyRegistry cTest).1 rfl (by norm_num [cTest])

/-- C3 counterexample: for the collector `cOverflow`, whose two distinct
descriptor ids sum to `2 ^ 64 + 1`, `register` succeeds and stores the
entry under the wrapping sum `1`, while `unregister` recomputes the plain
sum `2 ^ 64 + 1`; the two collector ids differ and the subsequent
`unregister` of the just-registered collector fails. -/
theorem register_unregister_disagree_on_overflow :
    (register emptyRegistry cOverflow).2 = none ∧
    lookupC (register emptyRegistry cOverflow).1.colloctors_by_id 1 = some cOverflow ∧
    (unregisterSum cOverflow.descs [] 0).2 = 2 ^ 64 + 1 ∧
    (unregister (register emptyRegistry cOverflow).1 cOverflow).2 =
      some Error.msgNotRegistered :=
  ⟨rfl, rfl, rfl, rfl⟩

/-! ## C4 -/

/-- C4 (the code contradicts its own documentation, registry.rs:211-213):
re-registering the exact collector just registered fails not with
`Error::AlreadyReg` but with the duplicate-descriptor message error — the
first descriptor's id is already in `desc_ids`, so the loop returns before
the `colloctors_by_id` entry check is reached.  The first registration's
entry does remain active. -/
theorem reregister_fails_with_duplicate_not_alreadyReg :
    (register emptyRegistry cTest).2 = none ∧
    (register (register emptyRegistry cTest).1 cTest).2 =
      some (Error.msgDuplicateDescriptor ⟨11, "test", 101⟩) ∧
    (register (register emptyRegistry cTest).1 cTest).2 ≠ some Error.alreadyReg ∧
    (register (register emptyRegistry cTest).1 cTest).1.colloctors_by_id =
      (register emptyRegistry cTest).1.colloctors_by_id := by
  refine ⟨rfl, rfl, ?_, rfl⟩
  rw [show (register (register emptyRegistry cTest).1 cTest).2 =
        some (Error.msgDuplicateDescriptor ⟨11, "test", 101⟩) from rfl]
  simp

/-! ## C8 -/

/-- C8: when the recomputed collector id matches no entry, `unregister`
fails with the not-registered error and leaves the state unchanged; in
particular a second `unregister` of a collector just unregistered fails
with that error. -/
theorem unregister_not_registered (s : RegistryCore) (c : Collector)
    (h : lookupC s.colloctors_by_id (unregisterSum c.descs [] 0).2 = none) :
    unregister s c = (s, some Error.msgNotRegistered) ∧
    ∀ (s0 s1 : RegistryCore), unregister s0 c = (s1, none) →
      (unregister s1 c).2 = some Error.msgNotRegistered := by
  constructor
  · unfold unregister
    simp only [h]
  · intro s0 s1 h0
    unfold unregister at h0
    split at h0
    · rename_i c' hlk
      injection h0 with h1 h2
      subst h1
      unfold unregister
      simp only [lookupC_removeC_self]
    · simp at h0

/-- Witness for C8 at the concrete double-unregister of `cTest` from the
singleton registry built by registering it into the empty registry. -/
theorem unregister_not_registered_witness :
    unregister emptyRegistry cTest = (emptyRegistry, some Error.msgNotRegistered) ∧
    (unregister (unregister (register emptyRegistry cTest).1 cTest).1 cTest).2 =
      some Error.msgNotRegistered :=
  ⟨(unregister_not_registered emptyRegistry cTest rfl).1,
   (unregister_not_registered emptyRegistry cTest rfl).2
     (register emptyRegistry cTest).1
     (unregister (register emptyRegistry cTest).1 cTest).1 rfl⟩

/-! ## C10 -/

/-- C10: a collector exposing no descriptors is accepted under collector
id 0 (when that id is free), adding nothing to `desc_ids` or
`dim_hashes_by_name`; registering a second descriptor-less collector into
the resulting registry then fails with `Error::AlreadyReg` although the
two collectors share no descriptor. -/
theorem register_empty_desc_collector (s : RegistryCore) (c c' : Collector)
    (hc : c.descs = []) (hc' : c'.descs = [])
    (h0 : lookupC s.colloctors_by_id 0 = none) :
    register s c = ({ s with colloctors_by_id := (0, c) :: s.colloctors_by_id }, none) ∧
    (register { s with colloctors_by_id := (0, c) :: s.colloctors_by_id } c').2 =
      some Error.alreadyReg := by
  constructor
  · unfold register
    rw [hc]
    simp [registerLoop, h0]
  · unfold register
    rw [hc']
    simp [registerLoop, lookupC]

/-- Witness for C10 at the two concrete descriptor-less collectors
`cEmptyA`, `cEmptyB` and the empty registry. -/
theorem register_empty_desc_collector_witness :
    register emptyRegistry cEmptyA =
      ({ emptyRegistry with colloctors_by_id := [(0, cEmptyA)] }, none) ∧
    (register { emptyRegistry with colloctors_by_id := [(0, cEmptyA)] } cEmptyB).2 =
      some Error.alreadyReg :=
  register_empty_desc_collector emptyRegistry cEmptyA cEmptyB rfl rfl rfl

/-! ## C5 -/

/-- If some descriptor of the call conflicts with a dimension hash already
recorded under its name, the descriptor loop fails; and when neither
id-based check can fire first (all ids fresh and pairwise distinct), it
fails precisely with the inconsistent-descriptor error.  The recorded hash
for the conflicting name is pinned for the whole loop: a step can only
re-insert the identical hash, since a differing one errors out first. -/
theorem registerLoop_dim_conflict_error (ds : List Desc) :
    ∀ (s : RegistryCore) (sc : List Nat) (cid : Nat) (n : String) (hsh : Nat),
      lookupD s.dim_hashes_by_name n = some hsh →
      (∃ d ∈ ds, d.fq_name = n ∧ d.dim_hash ≠ hsh) →
      (∃ st e, registerLoop s ds sc cid = (st, Except.error e)) ∧
      ((∀ d ∈ ds, d.id ∉ s.desc_ids) → (∀ d ∈ ds, d.id ∉ sc) →
        (ds.map Desc.id).Nodup →
        ∃ st d', registerLoop s ds sc cid =
          (st, Except.error (Error.msgInconsistentDescriptor d'))) := by
  induction ds with
  | nil => intro s sc cid n hsh _ hex; simp at hex
  | cons d0 rest ih =>
    intro s sc cid n hsh hn hex
    by_cases h1 : d0.id ∈ s.desc_ids
    · refine ⟨⟨s, Error.msgDuplicateDescriptor d0, by simp [registerLoop, h1]⟩, ?_⟩
      intro hfresh _ _
      exact absurd h1 (hfresh d0 (by simp))
    · by_cases h2 : dimConflict s.dim_hashes_by_name d0
      · exact ⟨⟨s, Error.msgInconsistentDescriptor d0, by simp [registerLoop, h1, h2]⟩,
          fun _ _ _ => ⟨s, d0, by simp [registerLoop, h1, h2]⟩⟩
      · by_cases h3 : d0.id ∈ sc
        · refine ⟨⟨{ s with dim_hashes_by_name := dimInsert s.dim_hashes_by_name d0.fq_name d0.dim_hash }, Error.msgDuplicateInCollector d0.fq_name, by simp [registerLoop, h1, h2, h3]⟩, ?_⟩
          intro _ hscratch _
          exact absurd h3 (hscratch d0 (by simp))
        · have hstep : registerLoop s (d0 :: rest) sc cid = registerLoop { s with dim_hashes_by_name := dimInsert s.dim_hashes_by_name d0.fq_name d0.dim_hash } rest (d0.id :: sc) ((cid + d0.id) % 2 ^ 64) := by
            simp [registerLoop, h1, h2, h3]
          have hpin : lookupD (dimInsert s.dim_hashes_by_name d0.fq_name d0.dim_hash) n = some hsh := by
            by_cases hname : d0.fq_name = n
            · have : d0.dim_hash = hsh := by
                unfold dimConflict at h2
                rw [hname, hn] at h2
                have h2' : hsh = d0.dim_hash := by simpa using h2
                exact h2'.symm
              rw [hname, this]
              exact lookupD_dimInsert_self _ _ _
            · rw [lookupD_dimInsert_ne _ _ _ _ hname]
              exact hn
          have hex' : ∃ d ∈ rest, d.fq_name = n ∧ d.dim_hash ≠ hsh := by
            obtain ⟨d, hd, hdn, hdh⟩ := hex
            rcases List.mem_cons.mp hd with rfl | hd
            · exfalso
              apply hdh
              unfold dimConflict at h2
              rw [hdn, hn] at h2
              have h2' : hsh = d.dim_hash := by simpa using h2
              exact h2'.symm
            · exact ⟨d, hd, hdn, hdh⟩
          obtain ⟨hfail, hprec⟩ := ih { s with dim_hashes_by_name := dimInsert s.dim_hashes_by_name d0.fq_name d0.dim_hash } (d0.id :: sc) ((cid + d0.id) % 2 ^ 64) n hsh hpin hex'
          refine ⟨by rw [hstep]; exact hfail, ?_⟩
          intro hfresh hscratch hnd
          rw [List.map_cons, List.nodup_cons] at hnd
          rw [hstep]
          refine hprec ?_ ?_ hnd.2
          · intro d hd
            exact hfresh d (List.mem_cons_of_mem _ hd)
          · intro d hd
            simp only [List.mem_cons, not_or]
            refine ⟨?_, hscratch d (List.mem_cons_of_mem _ hd)⟩
            intro hcontra
            exact hnd.1 (List.mem_map.mpr ⟨d, hd, hcontra⟩)

/-- C5: registering a collector exposing a descriptor whose name already
carries a different dimension hash always fails; under the natural side
conditions (ids fresh and distinct, so no id check fires first) it fails
with the inconsistent-descriptor error. -/
theorem register_inconsistent_dim_hash (s : RegistryCore) (c : Collector)
    (n : String) (hsh : Nat) (d : Desc) (hd : d ∈ c.descs)
    (hn : lookupD s.dim_hashes_by_name n = some hsh)
    (hname : d.fq_name = n) (hdiff : d.dim_hash ≠ hsh) :
    (register s c).2.isSome ∧
    ((∀ d' ∈ c.descs, d'.id ∉ s.desc_ids) → (c.descs.map Desc.id).Nodup →
      ∃ d', (register s c).2 = some (Error.msgInconsistentDescriptor d')) := by
  obtain ⟨hfail, hprec⟩ :=
    registerLoop_dim_conflict_error c.descs s [] 0 n hsh hn ⟨d, hd, hname, hdiff⟩
  constructor
  · obtain ⟨st, e, hl⟩ := hfail
    simp [register, hl]
  · intro hfresh hnd
    obtain ⟨st, d', hl⟩ := hprec hfresh (by simp) hnd
    exact ⟨d', by simp [register, hl]⟩

/-- Witness for C5 at the registry `sDimM` (name "m" recorded with hash 3)
and the collector `cDimM` exposing "m" with hash 4. -/
theorem register_inconsistent_dim_hash_witness :
    (register sDimM cDimM).2.isSome ∧
    ∃ d', (register sDimM cDimM).2 = some (Error.msgInconsistentDescriptor d') :=
  ⟨(register_inconsistent_dim_hash sDimM cDimM "m" 3 ⟨1, "m", 4⟩ (by simp [cDimM])
      rfl rfl (by decide)).1,
   (register_inconsistent_dim_hash sDimM cDimM "m" 3 ⟨1, "m", 4⟩ (by simp [cDimM])
      rfl rfl (by decide)).2 (by simp [cDimM, sDimM]) (by simp [cDimM])⟩

/-! ## C6 -/

/-- A slice containing a family with empty name or empty metric list
fails the shared precondition scan. -/
theorem checkAll_error_of_bad (mfs : List MetricFamily) (mf : MetricFamily)
    (hmem : mf ∈ mfs) (hbad : mf.name = "" ∨ mf.metrics = []) :
    ∃ e, checkAll mfs = Except.error e := by
  induction mfs with
  | nil => simp at hmem
  | cons mf0 rest ih =>
    rcases List.mem_cons.mp hmem with rfl | hmem
    · rcases hbad with hname | hmet
      · by_cases hm : mf.metrics = []
        · exact ⟨Error.msgNoMetrics, by simp [checkAll, check_metric_family, hm]⟩
        · exact ⟨Error.msgNoName, by simp [checkAll, check_metric_family, hm, hname]⟩
      · exact ⟨Error.msgNoMetrics, by simp [checkAll, check_metric_family, hmet]⟩
    · cases hc : check_metric_family mf0 with
      | error e => exact ⟨e, by simp [checkAll, hc]⟩
      | ok u =>
        obtain ⟨e, he⟩ := ih hmem
        exact ⟨e, by simp [checkAll, hc, he]⟩

/-- C6: if any family of the input slice has an empty name or an empty
metric list, `encode` fails — for every per-family rendering, i.e. every
encoder implementation — and appends nothing to the sink, not even bytes
of families preceding the failing one. -/
theorem encode_bad_family_writes_nothing (render : MetricFamily → List Nat)
    (mfs : List MetricFamily) (writer : List Nat) (mf : MetricFamily)
    (hmem : mf ∈ mfs) (hbad : mf.name = "" ∨ mf.metrics = []) :
    (∃ e, (encode render mfs writer).2 = Except.error e) ∧
    (encode render mfs writer).1 = writer := by
  obtain ⟨e, he⟩ := checkAll_error_of_bad mfs mf hmem hbad
  exact ⟨⟨e, by simp [encode, he]⟩, by simp [encode, he]⟩

/-- Witness for C6: a slice whose first family is well-formed and whose
second has no metrics is rejected with nothing appended to the sink. -/
theorem encode_bad_family_writes_nothing_witness :
    (∃ e, (encode (fun _ => [1]) [⟨"ok", [⟨[], none⟩]⟩, ⟨"x", []⟩] []).2 =
      Except.error e) ∧
    (encode (fun _ => [1]) [⟨"ok", [⟨[], none⟩]⟩, ⟨"x", []⟩] []).1 = [] :=
  encode_bad_family_writes_nothing (fun _ => [1]) [⟨"ok", [⟨[], none⟩]⟩, ⟨"x", []⟩]
    [] ⟨"x", []⟩ (by simp) (Or.inr rfl)

/-! ## C9 -/

/-- After a successful registration, every descriptor id of the collector
is in the global `desc_ids` set. -/
theorem register_ok_ids_mem (s : RegistryCore) (c : Collector) (s1 : RegistryCore)
    (hreg : register s c = (s1, none)) :
    ∀ d ∈ c.descs, d.id ∈ s1.desc_ids := by
  unfold register at hreg
  split at hreg
  · simp at hreg
  · rename_i st sc cid heq
    split at hreg
    · simp at hreg
    · injection hreg with h1 h2
      subst h1
      intro d hd
      have hsc := registerLoop_ok_scratch c.descs s st [] sc 0 cid heq
      show d.id ∈ st.desc_ids ++ sc
      refine List.mem_append.mpr (Or.inr ?_)
      rw [hsc]
      simp only [List.append_nil, List.mem_reverse]
      exact List.mem_map.mpr ⟨d, hd, rfl⟩

/-- C9: `desc_ids` never shrinks — once a collector has been accepted, its
descriptor ids survive every later sequence of `register` / `unregister`
calls (including unregistering that collector); any later registration of
a collector sharing one of those ids fails, and re-registering the
original collector itself (if it exposes at least one descriptor) fails
with the duplicate-descriptor error for its first descriptor. -/
theorem desc_ids_never_reusable (s : RegistryCore) (c : Collector) (s1 : RegistryCore)
    (hreg : register s c = (s1, none)) (ops : List Op) :
    (∀ d ∈ c.descs, d.id ∈ (runOps s1 ops).desc_ids) ∧
    (∀ c' : Collector, (∃ d' ∈ c'.descs, ∃ d ∈ c.descs, d'.id = d.id) →
      (register (runOps s1 ops) c').2.isSome) ∧
    (∀ (d0 : Desc) (rest : List Desc), c.descs = d0 :: rest →
      (register (runOps s1 ops) c).2 = some (Error.msgDuplicateDescriptor d0)) := by
  have hbase := register_ok_ids_mem s c s1 hreg
  have hmem : ∀ d ∈ c.descs, d.id ∈ (runOps s1 ops).desc_ids := by
    intro d hd
    exact runOps_desc_ids_mono ops s1 d.id (hbase d hd)
  refine ⟨hmem, ?_, ?_⟩
  · intro c' ⟨d', hd', d, hd, hdd⟩
    refine register_seen_id_isSome (runOps s1 ops) c' d' hd' ?_
    rw [hdd]
    exact hmem d hd
  · intro d0 rest hds
    refine register_head_seen_id (runOps s1 ops) c d0 rest hds ?_
    exact hmem d0 (hds ▸ List.mem_cons_self d0 rest)

/-- Witness for C9: after registering `cTest` and then unregistering it,
its descriptor id 11 is still reserved and re-registering `cTest` fails
with the duplicate-descriptor error. -/
theorem desc_ids_never_reusable_witness :
    11 ∈ (runOps (register emptyRegistry cTest).1 [Op.unreg cTest]).desc_ids ∧
    (register (runOps (register emptyRegistry cTest).1 [Op.unreg cTest]) cTest).2 =
      some (Error.msgDuplicateDescriptor ⟨11, "test", 101⟩) :=
  ⟨(desc_ids_never_reusable emptyRegistry cTest (register emptyRegistry cTest).1 rfl
      [Op.unreg cTest]).1 ⟨11, "test", 101⟩ (by simp [cTest]),
   (desc_ids_never_reusable emptyRegistry cTest (register emptyRegistry cTest).1 rfl
      [Op.unreg cTest]).2.2 ⟨11, "test", 101⟩ [] rfl⟩

/-! ## Comparator lemmas (towards C2) -/

theorem cmpOf_eq_lt {α : Type} [LinearOrder α] {a b : α} :
    cmpOf a b = Ordering.lt ↔ a < b := by
  unfold cmpOf
  split_ifs with h1 h2
  · simp [h1]
  · simp [h1]
  · simp [h1]

theorem cmpOf_eq_gt {α : Type} [LinearOrder α] {a b : α} :
    cmpOf a b = Ordering.gt ↔ b < a := by
  unfold cmpOf
  split_ifs with h1 h2
  · simp [asymm h1]
  · simp [h2]
  · simp [h2]

theorem cmpOf_eq_eq {α : Type} [LinearOrder α] {a b : α} :
    cmpOf a b = Ordering.eq ↔ a = b := by
  unfold cmpOf
  split_ifs with h1 h2
  · simp [ne_of_lt h1]
  · simp [(ne_of_lt h2).symm]
  · simp [le_antisymm (le_of_not_lt h2) (le_of_not_lt h1)]

theorem cmpOf_ne_gt {α : Type} [LinearOrder α] {a b : α} :
    cmpOf a b ≠ Ordering.gt ↔ a ≤ b := by
  rw [ne_eq, cmpOf_eq_gt, not_lt]

theorem cmpOf_swap {α : Type} [LinearOrder α] (a b : α) :
    cmpOf a b = (cmpOf b a).swap := by
  rcases lt_trichotomy a b with h | h | h
  · rw [cmpOf_eq_lt.mpr h, (by rwa [cmpOf_eq_gt] : cmpOf b a = Ordering.gt)]
    rfl
  · subst h
    rw [cmpOf_eq_eq.mpr rfl]
    rfl
  · rw [cmpOf_eq_gt.mpr h, (by rwa [cmpOf_eq_lt] : cmpOf b a = Ordering.lt)]
    rfl

theorem lvCmp_nil_left (l : List LabelPair) : lvCmp [] l = Ordering.eq := by
  cases l <;> rfl

theorem lvCmp_nil_right (l : List LabelPair) : lvCmp l [] = Ordering.eq := by
  cases l <;> rfl

theorem lvCmp_swap (l1 : List LabelPair) :
    ∀ l2, lvCmp l1 l2 = (lvCmp l2 l1).swap := by
  induction l1 with
  | nil => intro l2; rw [lvCmp_nil_left, lvCmp_nil_right]; rfl
  | cons x1 r1 ih =>
    intro l2
    cases l2 with
    | nil => rw [lvCmp_nil_left, lvCmp_nil_right]; rfl
    | cons x2 r2 =>
      simp only [lvCmp]
      by_cases hv : x1.value = x2.value
      · have h1 : ¬ x1.value ≠ x2.value := by simp [hv]
        have h2 : ¬ x2.value ≠ x1.value := by simp [hv]
        rw [if_neg h1, if_neg h2]
        exact ih r2
      · have h2 : x2.value ≠ x1.value := fun hcontra => hv hcontra.symm
        rw [if_pos hv, if_pos h2]
        exact cmpOf_swap _ _

/-- On equal-length lists the label-value loop returns `eq` exactly when
the value sequences coincide. -/
theorem lvCmp_eq_iff (l1 : List LabelPair) :
    ∀ l2, l1.length = l2.length →
      (lvCmp l1 l2 = Ordering.eq ↔
        l1.map LabelPair.value = l2.map LabelPair.value) := by
  induction l1 with
  | nil =>
    intro l2 hlen
    cases l2 with
    | nil => simp [lvCmp]
    | cons _ _ => simp at hlen
  | cons x1 r1 ih =>
    intro l2 hlen
    cases l2 with
    | nil => simp at hlen
    | cons x2 r2 =>
      simp only [List.length_cons, Nat.succ.injEq] at hlen
      by_cases hv : x1.value = x2.value
      · have : ¬ x1.value ≠ x2.value := by simp [hv]
        simp only [lvCmp, this, ite_false, List.map_cons, List.cons.injEq]
        rw [ih r2 hlen]
        simp [hv]
      · simp only [lvCmp, ne_eq, hv, not_false_eq_true, ite_true, List.map_cons,
          List.cons.injEq]
        constructor
        · intro hcontra
          exact absurd (cmpOf_eq_eq.mp hcontra) hv
        · intro hcontra
          exact hcontra.1.elim

/-- Transitivity package for the label-value loop on equal-length lists:
two non-`gt` comparisons compose to a non-`gt` comparison, and an `eq`
composite forces both components to `eq`. -/
theorem lvCmp_trans (l1 : List LabelPair) :
    ∀ l2 l3, l1.length = l2.length → l2.length = l3.length →
      lvCmp l1 l2 ≠ Ordering.gt → lvCmp l2 l3 ≠ Ordering.gt →
      lvCmp l1 l3 ≠ Ordering.gt ∧
      (lvCmp l1 l3 = Ordering.eq →
        lvCmp l1 l2 = Ordering.eq ∧ lvCmp l2 l3 = Ordering.eq) := by
  induction l1 with
  | nil =>
    intro l2 l3 h12 h23 _ _
    cases l2 with
    | nil =>
      cases l3 with
      | nil => simp [lvCmp]
      | cons _ _ => simp at h23
    | cons _ _ => simp at h12
  | cons x1 r1 ih =>
    intro l2 l3 h12 h23 hc12 hc23
    cases l2 with
    | nil => simp at h12
    | cons x2 r2 =>
      cases l3 with
      | nil => simp at h23
      | cons x3 r3 =>
        simp only [List.length_cons, Nat.succ.injEq] at h12 h23
        by_cases hv12 : x1.value = x2.value
        · have hn12 : ¬ x1.value ≠ x2.value := by simp [hv12]
          by_cases hv23 : x2.value = x3.value
          · have hn23 : ¬ x2.value ≠ x3.value := by simp [hv23]
            have hv13 : x1.value = x3.value := hv12.trans hv23
            have hn13 : ¬ x1.value ≠ x3.value := by simp [hv13]
            simp only [lvCmp, hn12, hn23, hn13, ite_false] at hc12 hc23 ⊢
            exact ih r2 r3 h12 h23 hc12 hc23
          · -- x2 < x3 strictly, so x1 < x3
            simp only [lvCmp, ne_eq, hn12, hv23, not_false_eq_true, ite_true,
              ite_false] at hc12 hc23 ⊢
            have hlt23 : x2.value < x3.value :=
              lt_of_le_of_ne (cmpOf_ne_gt.mp hc23) hv23
            have hlt13 : x1.value < x3.value := by rw [hv12]; exact hlt23
            have hne13 : x1.value ≠ x3.value := ne_of_lt hlt13
            simp only [ne_eq, hne13, not_false_eq_true, ite_true]
            constructor
            · intro hcontra
              exact absurd (cmpOf_eq_gt.mp hcontra) (not_lt.mpr (le_of_lt hlt13))
            · intro hcontra
              exact absurd (cmpOf_eq_eq.mp hcontra) hne13
        · simp only [lvCmp, ne_eq, hv12, not_false_eq_true, ite_true] at hc12
          have hlt12 : x1.value < x2.value :=
            lt_of_le_of_ne (cmpOf_ne_gt.mp hc12) hv12
          by_cases hv23 : x2.value = x3.value
          · have hn23 : ¬ x2.value ≠ x3.value := by simp [hv23]
            have hlt13 : x1.value < x3.value := by rw [← hv23]; exact hlt12
            have hne13 : x1.value ≠ x3.value := ne_of_lt hlt13
            simp only [lvCmp, ne_eq, hne13, not_false_eq_true, ite_true]
            constructor
            · intro hcontra
              exact absurd (cmpOf_eq_gt.mp hcontra) (not_lt.mpr (le_of_lt hlt13))
            · intro hcontra
              exact absurd (cmpOf_eq_eq.mp hcontra) hne13
          · simp only [lvCmp, ne_eq, hv23, not_false_eq_true, ite_true] at hc23
            have hlt23 : x2.value < x3.value :=
              lt_of_le_of_ne (cmpOf_ne_gt.mp hc23) hv23
            have hlt13 : x1.value < x3.value := lt_trans hlt12 hlt23
            have hne13 : x1.value ≠ x3.value := ne_of_lt hlt13
            simp only [lvCmp, ne_eq, hne13, not_false_eq_true, ite_true]
            constructor
            · intro hcontra
              exact absurd (cmpOf_eq_gt.mp hcontra) (not_lt.mpr (le_of_lt hlt13))
            · intro hcontra
              exact absurd (cmpOf_eq_eq.mp hcontra) hne13

/-- The metric comparator never yields `gt` exactly in the three cases the
ordering contract describes: fewer labels, lexicographically smaller (or
equal) label values, or equal values with a timestamp at most the other
metric's (missing timestamps greatest). -/
theorem metricCmp_ne_gt_iff (m1 m2 : Metric) :
    metricCmp m1 m2 ≠ Ordering.gt ↔
      (m1.labels.length < m2.labels.length ∨
        (m1.labels.length = m2.labels.length ∧
          (lvCmp m1.labels m2.labels = Ordering.lt ∨
            (lvCmp m1.labels m2.labels = Ordering.eq ∧
              tsKey m1.timestamp_ms ≤ tsKey m2.timestamp_ms)))) := by
  unfold metricCmp
  by_cases hlen : m1.labels.length = m2.labels.length
  · have hn : ¬ m1.labels.length ≠ m2.labels.length := by simp [hlen]
    rw [if_neg hn]
    cases hlv : lvCmp m1.labels m2.labels with
    | lt => simp [hlen]
    | gt => simp [hlen, lt_irrefl]
    | eq =>
      unfold tsCmp
      constructor
      · intro h
        exact Or.inr ⟨hlen, Or.inr ⟨rfl, cmpOf_ne_gt.mp h⟩⟩
      · intro h hgt
        rcases h with h | ⟨_, h | ⟨_, h⟩⟩
        · exact absurd h (by simp [hlen])
        · exact absurd h (by simp)
        · exact absurd (cmpOf_eq_gt.mp hgt) (not_lt.mpr h)
  · rw [if_pos hlen]
    constructor
    · intro h
      exact Or.inl (lt_of_le_of_ne (cmpOf_ne_gt.mp h) hlen)
    · intro h hgt
      rcases h with h | ⟨h, _⟩
      · exact absurd (cmpOf_eq_gt.mp hgt) (not_lt.mpr (le_of_lt h))
      · exact hlen h

theorem metricCmp_swap (m1 m2 : Metric) :
    metricCmp m1 m2 = (metricCmp m2 m1).swap := by
  unfold metricCmp
  by_cases hlen : m1.labels.length = m2.labels.length
  · have hn1 : ¬ m1.labels.length ≠ m2.labels.length := by simp [hlen]
    have hn2 : ¬ m2.labels.length ≠ m1.labels.length := by simp [hlen]
    rw [if_neg hn1, if_neg hn2, lvCmp_swap m1.labels m2.labels]
    cases hlv : lvCmp m2.labels m1.labels with
    | lt => rfl
    | gt => rfl
    | eq =>
      unfold tsCmp
      show cmpOf _ _ = _
      exact cmpOf_swap _ _
  · have hn2 : m2.labels.length ≠ m1.labels.length := fun hc => hlen hc.symm
    rw [if_pos hlen, if_pos hn2]
    exact cmpOf_swap _ _

theorem metricCmp_total (m1 m2 : Metric) :
    metricCmp m1 m2 ≠ Ordering.gt ∨ metricCmp m2 m1 ≠ Ordering.gt := by
  rw [metricCmp_swap]
  cases metricCmp m2 m1 <;> simp [Ordering.swap]

theorem metricCmp_trans (m1 m2 m3 : Metric)
    (h12 : metricCmp m1 m2 ≠ Ordering.gt) (h23 : metricCmp m2 m3 ≠ Ordering.gt) :
    metricCmp m1 m3 ≠ Ordering.gt := by
  rw [metricCmp_ne_gt_iff] at h12 h23 ⊢
  rcases h12 with hl12 | ⟨he12, hin12⟩
  · rcases h23 with hl23 | ⟨he23, _⟩
    · exact Or.inl (lt_trans hl12 hl23)
    · exact Or.inl (by rw [← he23]; exact hl12)
  · rcases h23 with hl23 | ⟨he23, hin23⟩
    · exact Or.inl (by rw [he12]; exact hl23)
    · refine Or.inr ⟨he12.trans he23, ?_⟩
      have hlv12 : lvCmp m1.labels m2.labels ≠ Ordering.gt := by
        rcases hin12 with h | ⟨h, _⟩ <;> simp [h]
      have hlv23 : lvCmp m2.labels m3.labels ≠ Ordering.gt := by
        rcases hin23 with h | ⟨h, _⟩ <;> simp [h]
      obtain ⟨h13ne, h13eq⟩ :=
        lvCmp_trans m1.labels m2.labels m3.labels he12 he23 hlv12 hlv23
      cases hlv13 : lvCmp m1.labels m3.labels with
      | lt => exact Or.inl rfl
      | gt => exact absurd hlv13 h13ne
      | eq =>
        obtain ⟨heq12, heq23⟩ := h13eq hlv13
        have hts12 : tsKey m1.timestamp_ms ≤ tsKey m2.timestamp_ms := by
          rcases hin12 with h | ⟨_, h⟩
          · exact absurd heq12 (by simp [h])
          · exact h
        have hts23 : tsKey m2.timestamp_ms ≤ tsKey m3.timestamp_ms := by
          rcases hin23 with h | ⟨_, h⟩
          · exact absurd heq23 (by simp [h])
          · exact h
        exact Or.inr ⟨rfl, le_trans hts12 hts23⟩

/-! ## Sortedness of the comparator-driven insertion model of sort_by -/

theorem mem_insertSorted {α : Type} (cmp : α → α → Ordering) (x : α) (l : List α)
    (z : α) : z ∈ insertSorted cmp x l ↔ z = x ∨ z ∈ l := by
  induction l with
  | nil => simp [insertSorted]
  | cons y ys ih =>
    unfold insertSorted
    split_ifs with h
    · simp only [List.mem_cons, ih]
      tauto
    · simp only [List.mem_cons]

theorem pairwise_insertSorted {α : Type} (cmp : α → α → Ordering)
    (htot : ∀ a b, cmp a b ≠ Ordering.gt ∨ cmp b a ≠ Ordering.gt)
    (htrans : ∀ a b c, cmp a b ≠ Ordering.gt → cmp b c ≠ Ordering.gt →
      cmp a c ≠ Ordering.gt)
    (x : α) (l : List α) (hl : l.Pairwise (fun a b => cmp a b ≠ Ordering.gt)) :
    (insertSorted cmp x l).Pairwise (fun a b => cmp a b ≠ Ordering.gt) := by
  induction l with
  | nil => simp [insertSorted]
  | cons y ys ih =>
    rw [List.pairwise_cons] at hl
    obtain ⟨hy, hys⟩ := hl
    unfold insertSorted
    split_ifs with h
    · rw [List.pairwise_cons]
      refine ⟨?_, ih hys⟩
      intro z hz
      rcases (mem_insertSorted cmp x ys z).mp hz with rfl | hz
      · rcases htot z y with hzy | hyz
        · exact absurd hzy (by simp [h])
        · exact hyz
      · exact hy z hz
    · rw [List.pairwise_cons]
      refine ⟨?_, List.pairwise_cons.mpr ⟨hy, hys⟩⟩
      intro z hz
      rcases List.mem_cons.mp hz with rfl | hz
      · exact h
      · exact htrans x y z h (hy z hz)

theorem pairwise_sortBy {α : Type} (cmp : α → α → Ordering)
    (htot : ∀ a b, cmp a b ≠ Ordering.gt ∨ cmp b a ≠ Ordering.gt)
    (htrans : ∀ a b c, cmp a b ≠ Ordering.gt → cmp b c ≠ Ordering.gt →
      cmp a c ≠ Ordering.gt)
    (l : List α) :
    (sortBy cmp l).Pairwise (fun a b => cmp a b ≠ Ordering.gt) := by
  induction l with
  | nil => simp [sortBy]
  | cons x xs ih => exact pairwise_insertSorted cmp htot htrans x (sortBy cmp xs) ih

/-! ## C2 -/

/-- C2: in every family produced by `gather`, the metric list is sorted:
for every pair of metrics in list order, either the first has fewer
labels, or (same label count) its label values are lexicographically
smaller, or the label values coincide and the timestamps are ordered with
a missing timestamp sorting last (`tsKey none = ⊤`). -/
theorem gather_metrics_sorted (s : RegistryCore) :
    ∀ mf ∈ gather s, mf.metrics.Pairwise (fun m1 m2 =>
      m1.labels.length < m2.labels.length ∨
        (m1.labels.length = m2.labels.length ∧
          (lvCmp m1.labels m2.labels = Ordering.lt ∨
            (m1.labels.map LabelPair.value = m2.labels.map LabelPair.value ∧
              tsKey m1.timestamp_ms ≤ tsKey m2.timestamp_ms)))) := by
  intro mf hmf
  unfold gather at hmf
  obtain ⟨kv, _, rfl⟩ := List.mem_map.mp hmf
  show (sortBy metricCmp kv.2.metrics).Pairwise _
  refine (pairwise_sortBy metricCmp metricCmp_total metricCmp_trans
    kv.2.metrics).imp ?_
  intro m1 m2 h
  rcases (metricCmp_ne_gt_iff m1 m2).mp h with hl | ⟨he, hlv | ⟨hlv, hts⟩⟩
  · exact Or.inl hl
  · exact Or.inr ⟨he, Or.inl hlv⟩
  · exact Or.inr ⟨he, Or.inr ⟨(lvCmp_eq_iff m1.labels m2.labels he).mp hlv, hts⟩⟩

/-- Witness for C2 at the family gathered from the registry holding only
`cTest`. -/
theorem gather_metrics_sorted_witness :
    (⟨"test", [⟨[], none⟩]⟩ : MetricFamily).metrics.Pairwise (fun m1 m2 =>
      m1.labels.length < m2.labels.length ∨
        (m1.labels.length = m2.labels.length ∧
          (lvCmp m1.labels m2.labels = Ordering.lt ∨
            (m1.labels.map LabelPair.value = m2.labels.map LabelPair.value ∧
              tsKey m1.timestamp_ms ≤ tsKey m2.timestamp_ms)))) :=
  gather_metrics_sorted (register emptyRegistry cTest).1 ⟨"test", [⟨[], none⟩]⟩
    (List.mem_singleton.mpr rfl)

/-! ## The ordered merge map of gather (towards C7) -/

/-- Every key of the map after an insertion is the inserted name or one of
the previous keys. -/
theorem mfInsert_key_mem (m : List (String × MetricFamily)) (name : String)
    (mf : MetricFamily) :
    ∀ p ∈ mfInsert m name mf, p.1 = name ∨ p.1 ∈ m.map Prod.fst := by
  induction m with
  | nil =>
    intro p hp
    simp only [mfInsert, List.mem_singleton] at hp
    subst hp
    exact Or.inl rfl
  | cons kv rest ih =>
    obtain ⟨k, v⟩ := kv
    intro p hp
    unfold mfInsert at hp
    split_ifs at hp with h1 h2
    · rcases List.mem_cons.mp hp with rfl | hp
      · exact Or.inl rfl
      · exact Or.inr (List.mem_map.mpr ⟨p, hp, rfl⟩)
    · rcases List.mem_cons.mp hp with rfl | hp
      · exact Or.inl h2.symm
      · refine Or.inr ?_
        rw [List.map_cons]
        exact List.mem_cons_of_mem _ (List.mem_map.mpr ⟨p, hp, rfl⟩)
    · rcases List.mem_cons.mp hp with rfl | hp
      · refine Or.inr ?_
        rw [List.map_cons]
        exact List.mem_cons_self _ _
      · rcases ih p hp with hpn | hpk
        · exact Or.inl hpn
        · refine Or.inr ?_
          rw [List.map_cons]
          exact List.mem_cons_of_mem _ hpk

/-- Insertion keeps the merge map strictly sorted by key. -/
theorem mfInsert_pairwise (m : List (String × MetricFamily)) (name : String)
    (mf : MetricFamily) (hm : m.Pairwise (fun a b => a.1 < b.1)) :
    (mfInsert m name mf).Pairwise (fun a b => a.1 < b.1) := by
  induction m with
  | nil => simp [mfInsert]
  | cons kv rest ih =>
    obtain ⟨k, v⟩ := kv
    rw [List.pairwise_cons] at hm
    obtain ⟨hk, hrest⟩ := hm
    unfold mfInsert
    split_ifs with h1 h2
    · rw [List.pairwise_cons]
      refine ⟨?_, List.pairwise_cons.mpr ⟨hk, hrest⟩⟩
      intro p hp
      rcases List.mem_cons.mp hp with rfl | hp
      · exact h1
      · exact lt_trans h1 (hk p hp)
    · rw [List.pairwise_cons]
      exact ⟨fun p hp => hk p hp, hrest⟩
    · rw [List.pairwise_cons]
      refine ⟨?_, ih hrest⟩
      intro p hp
      rcases mfInsert_key_mem rest name mf p hp with hpn | hpk
      · rw [hpn]
        exact lt_of_le_of_ne (le_of_not_lt h1) (fun hc => h2 hc.symm)
      · obtain ⟨q, hq, hqe⟩ := List.mem_map.mp hpk
        exact hqe ▸ hk q hq

/-- Insertion keeps every stored family named after its key. -/
theorem mfInsert_names (m : List (String × MetricFamily)) (name : String)
    (mf : MetricFamily) (hm : ∀ p ∈ m, p.2.name = p.1) (hmf : mf.name = name) :
    ∀ p ∈ mfInsert m name mf, p.2.name = p.1 := by
  induction m with
  | nil =>
    intro p hp
    simp only [mfInsert, List.mem_singleton] at hp
    subst hp
    exact hmf
  | cons kv rest ih =>
    obtain ⟨k, v⟩ := kv
    intro p hp
    unfold mfInsert at hp
    split_ifs at hp with h1 h2
    · rcases List.mem_cons.mp hp with rfl | hp
      · exact hmf
      · exact hm p hp
    · rcases List.mem_cons.mp hp with rfl | hp
      · exact hm (k, v) (List.mem_cons_self _ _)
      · exact hm p (List.mem_cons_of_mem _ hp)
    · rcases List.mem_cons.mp hp with rfl | hp
      · exact hm (k, v) (List.mem_cons_self _ _)
      · exact ih (fun q hq => hm q (List.mem_cons_of_mem _ hq)) p hp

/-- Folding one collector's families into the merge map preserves both
invariants. -/
theorem foldl_mfInsert_invariant (mfs : List MetricFamily) :
    ∀ acc : List (String × MetricFamily),
      acc.Pairwise (fun a b => a.1 < b.1) → (∀ p ∈ acc, p.2.name = p.1) →
      (mfs.foldl (fun a mf => mfInsert a mf.name mf) acc).Pairwise
          (fun a b => a.1 < b.1) ∧
      ∀ p ∈ mfs.foldl (fun a mf => mfInsert a mf.name mf) acc, p.2.name = p.1 := by
  induction mfs with
  | nil => intro acc h1 h2; exact ⟨h1, h2⟩
  | cons mf rest ih =>
    intro acc h1 h2
    simp only [List.foldl_cons]
    exact ih _ (mfInsert_pairwise acc mf.name mf h1) (mfInsert_names acc mf.name mf h2 rfl)

/-- Folding all collectors preserves both merge-map invariants. -/
theorem gather_merged_invariant (l : List (Nat × Collector)) :
    ∀ acc : List (String × MetricFamily),
      acc.Pairwise (fun a b => a.1 < b.1) → (∀ p ∈ acc, p.2.name = p.1) →
      (l.foldl (fun acc kc => kc.2.collect.foldl
          (fun a mf => mfInsert a mf.name mf) acc) acc).Pairwise
        (fun a b => a.1 < b.1) ∧
      ∀ p ∈ l.foldl (fun acc kc => kc.2.collect.foldl
          (fun a mf => mfInsert a mf.name mf) acc) acc, p.2.name = p.1 := by
  induction l with
  | nil => intro acc h1 h2; exact ⟨h1, h2⟩
  | cons kc rest ih =>
    intro acc h1 h2
    simp only [List.foldl_cons]
    obtain ⟨h1', h2'⟩ := foldl_mfInsert_invariant kc.2.collect acc h1 h2
    exact ih _ h1' h2'

/-! ## C7 -/

/-- C7: `gather` emits the metric families in strictly ascending name
order whatever the registry contents (hence whatever the registration
order), and a registry without registered collectors gathers to the empty
list. -/
theorem gather_sorted_by_name (s : RegistryCore) :
    ((gather s).Pairwise fun f1 f2 => f1.name < f2.name) ∧
    (∀ (dim : List (String × Nat)) (ids : List Nat),
      gather { colloctors_by_id := [], dim_hashes_by_name := dim,
               desc_ids := ids } = []) := by
  constructor
  · unfold gather
    obtain ⟨hpw, hnm⟩ :=
      gather_merged_invariant s.colloctors_by_id [] (by simp) (by simp)
    rw [List.pairwise_map]
    refine hpw.imp_of_mem ?_
    intro a b ha hb hr
    show a.2.name < b.2.name
    rw [hnm a ha, hnm b hb]
    exact hr
  · intro dim ids
    rfl

end Prom
